import Mathlib

/-
Shallow embedding of the insigniaDNS resolver core (src/insigniaDNS.py).

The repository is a single Python file.  The core logic embedded here:
  * the `Record` class (lines 102-154): constructor with SOA default
    fields and TTL defaulting, `try_rr`, `as_rr`, `sensible_ttl`, `is_soa`;
  * the `ZONES` construction loop (lines 184-188);
  * the `Resolver` class (lines 193-217): exact-match branch and the
    SOA suffix-fallback branch of `resolve`.

Domain names come from the external `dnslib` library (`DNSLabel`): a
name is a tuple of labels; string construction idna-normalizes (ASCII
lower-cases) each label and strips trailing dots; `__eq__` compares
lower-cased label tuples; `matchSuffix(s)` compares the Python slice
`self.label[-len(s.label):]` against `s.label`.  `DNSLabel` is modelled
here with those semantics.

Python-visible failure is modelled with `Except PyError`:
  * `attributeError` models the `AttributeError` raised by the
    logging line `print(f"... > {rr.rdata}")` when `try_rr` returned
    `None` (resolve line 204);
  * `keyError` models the `KeyError` raised by `zone["type"]`,
    `zone["value"]`, `zone["name"]` when the key is absent.

The module-level constant `SERIAL` (seconds from the Unix epoch to
process start, line 54) is threaded through as an explicit `serial`
parameter, and `gethostbyname` (an external OS call used for
`"p"`-type entries) as an explicit function parameter `ghbn`.
-/

namespace InsigniaDNS

/-! Query-type codes, as assigned by the dnslib `QTYPE` bimap. -/

def QTYPE.A : Nat := 1

def QTYPE.NS : Nat := 2

def QTYPE.CNAME : Nat := 5

def QTYPE.SOA : Nat := 6

def QTYPE.MX : Nat := 15

def QTYPE.TXT : Nat := 16

def QTYPE.AAAA : Nat := 28

def QTYPE.ANY : Nat := 255

/-- Domain name as stored by dnslib `DNSLabel`: a sequence of labels. -/
structure DNSLabel where
  label : List String
deriving DecidableEq, Repr

/-- Python slice `l[-n:]` for `n ≥ 0`: the last `n` elements, except
that `l[-0:]` is all of `l`. -/
def pySliceLast (l : List α) (n : Nat) : List α :=
  if n = 0 then l else l.drop (l.length - n)

/-- dnslib `DNSLabel.matchSuffix`: compare the trailing slice of the
label tuple against the suffix label tuple. -/
def DNSLabel.matchSuffix (a suffix : DNSLabel) : Bool :=
  decide (pySliceLast a.label suffix.label.length = suffix.label)

/-- Character-wise lower-casing of a string. -/
def lowerString (s : String) : String :=
  ⟨s.data.map Char.toLower⟩

/-- dnslib `DNSLabel.__eq__`: lower-cased label tuples compared. -/
def DNSLabel.eqv (a b : DNSLabel) : Bool :=
  decide (a.label.map lowerString = b.label.map lowerString)

/-- Strip all trailing dot characters, Python `rstrip(".")`. -/
def stripTrailingDots (s : String) : String :=
  ⟨(s.data.reverse.dropWhile (fun c => c = '.')).reverse⟩

/-- Split a character list on the dot character, Python `split(".")`:
empty pieces are kept, and the empty input gives one empty piece. -/
def splitDotAux : List Char → List Char → List String
  | [], acc => [⟨acc.reverse⟩]
  | c :: rest, acc =>
      if c = '.' then ⟨acc.reverse⟩ :: splitDotAux rest []
      else splitDotAux rest (c :: acc)

/-- dnslib `DNSLabel(str)`: the empty name and the bare root name give
the empty tuple; otherwise idna-encode (ASCII-lower-case), strip
trailing dots and split on the dots. -/
def DNSLabel.ofString (s : String) : DNSLabel :=
  if s = "" ∨ s = "." then ⟨[]⟩
  else ⟨splitDotAux (stripTrailingDots (lowerString s)).data []⟩

/-! The `Record` class. -/

/-- The dnslib record-data classes appearing in `TYPE_LOOKUP`. -/
inductive RClass where
  | A
  | AAAA
  | CNAME
  | MX
  | NS
  | SOA
  | TXT
deriving DecidableEq, Repr

/-- Source `TYPE_LOOKUP` (lines 61-69): record-data class to QTYPE code. -/
def TYPE_LOOKUP : RClass → Nat
  | .A => QTYPE.A
  | .AAAA => QTYPE.AAAA
  | .CNAME => QTYPE.CNAME
  | .MX => QTYPE.MX
  | .NS => QTYPE.NS
  | .SOA => QTYPE.SOA
  | .TXT => QTYPE.TXT

/-- The five timer fields of an SOA payload, in dnslib order. -/
structure SOATimes where
  serial : Nat
  refresh : Nat
  retryT : Nat
  expire : Nat
  minimum : Nat
deriving DecidableEq, Repr

/-- Constructed record data (a dnslib `RD` instance). -/
inductive RData where
  | a (addr : String)
  | aaaa (addr : String)
  | cname (n : String)
  | mx (n : String) (pref : Nat)
  | ns (n : String)
  | soa (mname : String) (rp : String) (times : SOATimes)
  | txt (s : String)
deriving DecidableEq, Repr

/-- Python `rdata.__class__`: the class of a constructed `RD` value. -/
def RData.cls : RData → RClass
  | .a _ => .A
  | .aaaa _ => .AAAA
  | .cname _ => .CNAME
  | .mx _ _ => .MX
  | .ns _ => .NS
  | .soa _ _ _ => .SOA
  | .txt _ => .TXT

/-- A record-data class together with the positional `*args` passed to
it, in the shapes the constructor call sites use.  An SOA carries
either just the two mandatory fields (`times = none`) or all fields. -/
inductive CtorArgs where
  | A (addr : String)
  | AAAA (addr : String)
  | CNAME (n : String)
  | MX (n : String) (pref : Nat)
  | NS (n : String)
  | SOA (mname : String) (rp : String) (times : Option SOATimes)
  | TXT (s : String)
deriving DecidableEq, Repr

/-- The class component of a `CtorArgs` value (`TYPE_LOOKUP[rdata_type]`). -/
def CtorArgs.cls : CtorArgs → RClass
  | .A _ => .A
  | .AAAA _ => .AAAA
  | .CNAME _ => .CNAME
  | .MX _ _ => .MX
  | .NS _ => .NS
  | .SOA _ _ _ => .SOA
  | .TXT _ => .TXT

/-- Evaluate `rdata_type(*args)` (`Record.__init__` lines 112-123):
for `SOA` with exactly the two mandatory args, first extend the args
with the sensible-times tuple `(SERIAL, 3600, 10800, 86400, 3600)`. -/
def CtorArgs.build (serial : Nat) : CtorArgs → RData
  | .A s => .a s
  | .AAAA s => .aaaa s
  | .CNAME s => .cname s
  | .MX s p => .mx s p
  | .NS s => .ns s
  | .SOA m r none =>
      .soa m r ⟨serial, 60 * 60 * 1, 60 * 60 * 3, 60 * 60 * 24, 60 * 60 * 1⟩
  | .SOA m r (some t) => .soa m r t
  | .TXT s => .txt s

/-- First positional argument of `Record.__init__`: either an already
constructed `RD` instance (`isinstance(rdata_type, RD)` branch) or a
record-data class together with the remaining positional args. -/
inductive RdataArg where
  | inst (rd : RData)
  | cls (c : CtorArgs)
deriving DecidableEq, Repr

/-- Method `Record.sensible_ttl` (lines 143-147), reading the final `_rtype`. -/
def sensible_ttl (rtype : Nat) : Nat :=
  if rtype = QTYPE.NS ∨ rtype = QTYPE.SOA then 60 * 60 * 24 else 300

/-- State of a constructed `Record`: `_rtype`, `_rname`, and the
`kwargs` dict entries `rdata` and `ttl`. -/
structure Record where
  rtype : Nat
  rname : Option DNSLabel
  rdata : RData
  ttl : Nat
deriving DecidableEq, Repr

/-- Constructor `Record.__init__` (lines 103-132).  The `_rtype` starts as the
`TYPE_LOOKUP` of the data class; `if rtype:` overrides it only with a
truthy (non-zero, non-`None`) value; the stored `ttl` is the explicit
one when given (`if ttl is None`), else `sensible_ttl()` of the final
`_rtype`. -/
def Record.init (serial : Nat) (arg : RdataArg) (rtype : Option Nat)
    (rname : Option DNSLabel) (ttl : Option Nat) : Record :=
  let p : Nat × RData :=
    match arg with
    | .inst rd => (TYPE_LOOKUP rd.cls, rd)
    | .cls c => (TYPE_LOOKUP c.cls, c.build serial)
  let rt : Nat :=
    match rtype with
    | some t => if t = 0 then p.1 else t
    | none => p.1
  { rtype := rt
    rname := rname
    rdata := p.2
    ttl := match ttl with
           | some t => t
           | none => sensible_ttl rt }

/-- A produced answer resource record (dnslib `RR` fields we model). -/
structure RR where
  rname : DNSLabel
  rtype : Nat
  rdata : RData
  ttl : Nat
deriving DecidableEq, Repr

/-- Method `Record.as_rr` (lines 138-141): `rname = self._rname or alt_rname`. -/
def Record.as_rr (r : Record) (alt_rname : DNSLabel) : RR :=
  { rname := r.rname.getD alt_rname
    rtype := r.rtype
    rdata := r.rdata
    ttl := r.ttl }

/-- An incoming question: `request.q` with its `qname` and `qtype`. -/
structure DNSQuestion where
  qname : DNSLabel
  qtype : Nat
deriving DecidableEq, Repr

/-- Method `Record.try_rr` (lines 134-136): an `RR` under the queried name
when the query asks for `ANY` or exactly the type of this record, else the
implicit `None`. -/
def Record.try_rr (r : Record) (q : DNSQuestion) : Option RR :=
  if q.qtype = QTYPE.ANY ∨ q.qtype = r.rtype then some (r.as_rr q.qname)
  else none

/-- Property `Record.is_soa` (lines 149-151). -/
def Record.is_soa (r : Record) : Bool :=
  decide (r.rtype = QTYPE.SOA)

/-- Python exceptions that the embedded code can raise. -/
inductive PyError where
  | attributeError
  | keyError
deriving DecidableEq, Repr

/-! Ordered dictionaries.  Python 3.7+ `dict` preserves insertion
order; assigning to an existing key replaces the value but keeps the
original position of the key.  Modelled as association lists. -/

/-- Dictionary lookup `d.get(k)`: first entry whose key equals the
probe under the equality of the key type. -/
def lookupOD (eqk : κ → κ → Bool) : List (κ × α) → κ → Option α
  | [], _ => none
  | (k0, v0) :: rest, k => if eqk k0 k then some v0 else lookupOD eqk rest k

/-- Dictionary assignment `d[k] = v`: replace in place when an equal
key exists, else append a new entry. -/
def insertOD (eqk : κ → κ → Bool) : List (κ × α) → κ → α → List (κ × α)
  | [], k, v => [(k, v)]
  | (k0, v0) :: rest, k, v =>
      if eqk k0 k then (k0, v) :: rest else (k0, v0) :: insertOD eqk rest k v

/-! The `Resolver` class. -/

/-- Exact-match branch of `resolve` (lines 201-205): for each record of
the found zone, `rr = try_rr(q)`; the logging line then evaluates
`rr.rdata`, raising `AttributeError` when `rr` is `None`; otherwise
`rr and reply.add_answer(rr)` appends the answer. -/
def exact_answers (q : DNSQuestion) : List Record → Except PyError (List RR)
  | [] => .ok []
  | r :: rest =>
      match r.try_rr q with
      | none => .error .attributeError
      | some rr => (exact_answers q rest).map (fun l => rr :: l)

/-- Python `next(r for r in zone_records if r.is_soa)` caught against
`StopIteration` (lines 211-213): first record with `is_soa`, if any. -/
def findSOA : List Record → Option Record
  | [] => none
  | r :: rest => if r.is_soa then some r else findSOA rest

/-- Suffix-fallback branch of `resolve` (lines 206-216): scan the zones
in stored order; on a suffix match, look for the first SOA record;
found: answer `[soa_record.as_rr(zone_label)]` and stop; not found:
`continue` with the remaining zones. -/
def fallback_answers (qname : DNSLabel) :
    List (DNSLabel × List Record) → List RR
  | [] => []
  | (zl, zrecs) :: rest =>
      if qname.matchSuffix zl then
        match findSOA zrecs with
        | some r => [r.as_rr zl]
        | none => fallback_answers qname rest
      else fallback_answers qname rest

/-- State of a `Resolver`: `self.zones`, a dict from `DNSLabel` to record
list, in construction order. -/
structure Resolver where
  zones : List (DNSLabel × List Record)
deriving DecidableEq, Repr

/-- The answers accumulated by `Resolver.resolve` (lines 197-217), or
the exception it raises: the exact-match branch when
`self.zones.get(request.q.qname)` finds a zone, else the SOA
suffix-fallback branch (which never raises). -/
def Resolver.resolveAnswers (res : Resolver) (q : DNSQuestion) :
    Except PyError (List RR) :=
  match lookupOD DNSLabel.eqv res.zones q.qname with
  | some zone => exact_answers q zone
  | none => .ok (fallback_answers q.qname res.zones)

/-- Method `Resolver.resolve` with the resolver state threaded explicitly:
the method only reads `self.zones`, so the state component of the
result is the input state. -/
def Resolver.resolve (res : Resolver) (q : DNSQuestion) :
    Except PyError (List RR) × Resolver :=
  (res.resolveAnswers q, res)

/-! The `ZONES` construction loop (lines 184-188). -/

/-- One parsed zone entry from the provider: a JSON object whose
`type`, `name` and `value` keys may each be absent. -/
structure ZoneEntry where
  type : Option String
  name : Option String
  value : Option String
deriving DecidableEq, Repr

/-- Python dict subscript `zone[k]`: `KeyError` when the key is absent. -/
def getItem (o : Option String) : Except PyError String :=
  match o with
  | some s => .ok s
  | none => .error .keyError

/-- String equality, the `dict` key equality for `ZONES`. -/
def strEq (a b : String) : Bool :=
  decide (a = b)

/-- One iteration of the `ZONES` loop (lines 184-188).  A `"type"` of
`"a"` assigns `[Record(A, zone["value"])]` to `ZONES[zone["name"]]`; a
`"type"` of `"p"` first resolves the value with `gethostbyname`
(modelled by `ghbn`); any other type falls through both branches and
leaves the dict untouched.  Python evaluates the right-hand side (and
so `zone["value"]`) before the subscript `zone["name"]`. -/
def zoneStep (serial : Nat) (ghbn : String → String)
    (tbl : List (String × List Record)) (zone : ZoneEntry) :
    Except PyError (List (String × List Record)) := do
  let t ← getItem zone.type
  if t = "a" then
    let v ← getItem zone.value
    let n ← getItem zone.name
    return insertOD strEq tbl n [Record.init serial (.cls (.A v)) none none none]
  else if t = "p" then
    let v ← getItem zone.value
    let n ← getItem zone.name
    return insertOD strEq tbl n
      [Record.init serial (.cls (.A (ghbn v))) none none none]
  else
    return tbl

/-- The whole `for zone in zones:` loop, starting from the empty
`ZONES = \x7b\x7d` dict; a raised `KeyError` aborts the loop (and, in the
program, the process — no partial table is published on that path). -/
def buildZONES (serial : Nat) (ghbn : String → String)
    (entries : List ZoneEntry) : Except PyError (List (String × List Record)) :=
  entries.foldlM (zoneStep serial ghbn) []

/-- Constructor `Resolver.__init__` (lines 194-195): the dict comprehension
re-keys `ZONES` by `DNSLabel(k)`, preserving iteration order and
using `DNSLabel` equality for key collisions. -/
def Resolver.init (tbl : List (String × List Record)) : Resolver :=
  ⟨tbl.foldl (fun acc kv => insertOD DNSLabel.eqv acc (DNSLabel.ofString kv.1) kv.2) []⟩

/-! Claim-side (spec-worded) definitions, for comparison with the
code-side definitions above. -/

/-- Fallback result as the spec words it: find the first
suffix-matching zone that contains an SOA record, and answer with that
first SOA record of that zone; no such zone means no answers. -/
def fallbackSpec (zones : List (DNSLabel × List Record)) (qname : DNSLabel) :
    List RR :=
  match zones.find? (fun zv => qname.matchSuffix zv.1 && zv.2.any Record.is_soa) with
  | none => []
  | some zv =>
      match zv.2.find? Record.is_soa with
      | none => []
      | some r => [r.as_rr zv.1]

/-- A well-formed provider entry: recognized type and both other keys
present. -/
def wfEntry (e : ZoneEntry) : Prop :=
  (e.type = some "a" ∨ e.type = some "p") ∧ e.name.isSome ∧ e.value.isSome

instance (e : ZoneEntry) : Decidable (wfEntry e) := by
  unfold wfEntry
  infer_instance

/-- A malformed provider entry in the sense the construction loop can
detect: the `type` key is absent, or the type is recognized but the
key the taken branch reads first (`value`) or the assignment subscript
(`name`) is absent. -/
def badEntry (e : ZoneEntry) : Prop :=
  e.type = none ∨
    ((e.type = some "a" ∨ e.type = some "p") ∧ (e.value = none ∨ e.name = none))

instance (e : ZoneEntry) : Decidable (badEntry e) := by
  unfold badEntry
  infer_instance

/-- The `name` of the entry, defaulting the absent case (only used under a
well-formedness hypothesis). -/
def entryName (e : ZoneEntry) : String :=
  e.name.getD ""

/-- The single record the loop builds for a well-formed entry. -/
def entryRecord (serial : Nat) (ghbn : String → String) (e : ZoneEntry) : Record :=
  Record.init serial
    (.cls (.A (if e.type = some "a" then e.value.getD "" else ghbn (e.value.getD ""))))
    none none none

/-- First occurrences of the names in a list, skipping names already
seen: the key order a Python dict ends up with. -/
def firstOccs (seen : List String) : List String → List String
  | [] => []
  | n :: rest =>
      if n ∈ seen then firstOccs seen rest else n :: firstOccs (n :: seen) rest

/-! Concrete inputs used by counterexamples and witnesses. -/

/-- An `A` record as the construction loop builds them. -/
def aRecord (serial : Nat) (v : String) : Record :=
  Record.init serial (.cls (.A v)) none none none

/-- Resolver with one zone holding a single `A` record. -/
def c1res : Resolver :=
  ⟨[(⟨["example", "com"]⟩, [aRecord 0 "1.2.3.4"])]⟩

/-- Query for `example.com` with qtype `MX`, matching no record. -/
def c1q : DNSQuestion :=
  ⟨⟨["example", "com"]⟩, QTYPE.MX⟩

/-- Resolver with one zone holding an `A` and a `TXT` record. -/
def c2res : Resolver :=
  ⟨[(⟨["example", "com"]⟩,
     [aRecord 0 "1.2.3.4", Record.init 0 (.cls (.TXT "hello")) none none none])]⟩

/-- Zone `com` whose SOA record carries an `rname` override. -/
def c3res : Resolver :=
  ⟨[(⟨["com"]⟩,
     [Record.init 0 (.cls (.SOA "ns1.example" "hostmaster.example" none))
        none (some ⟨["other", "test"]⟩) none])]⟩

/-- Query for `www.com`, which has no exact zone in `c3res`. -/
def c3q : DNSQuestion :=
  ⟨⟨["www", "com"]⟩, QTYPE.A⟩

/-- Zones `net` (no SOA) then `com` (with SOA), in that order. -/
def c3wres : Resolver :=
  ⟨[(⟨["net"]⟩, [aRecord 0 "9.9.9.9"]),
    (⟨["com"]⟩,
     [Record.init 0 (.cls (.SOA "ns1.example" "hostmaster.example" none))
        none none none])]⟩

/-- Query for `www.com`, which has no exact zone in `c3wres`. -/
def c3wq : DNSQuestion :=
  ⟨⟨["www", "com"]⟩, QTYPE.A⟩

/-- The insert step the construction loop performs for one well-formed
entry. -/
def wfStep (serial : Nat) (ghbn : String → String)
    (t : List (String × List Record)) (e : ZoneEntry) :
    List (String × List Record) :=
  insertOD strEq t (entryName e) [entryRecord serial ghbn e]

/-- Two well-formed entries carrying the same zone name. -/
def c6entries : List ZoneEntry :=
  [⟨some "a", some "x.com", some "1.1.1.1"⟩,
   ⟨some "a", some "x.com", some "2.2.2.2"⟩]

/-- Well-formed entries: two names, the first name occurring twice. -/
def c6wentries : List ZoneEntry :=
  [⟨some "a", some "alpha.com", some "1.1.1.1"⟩,
   ⟨some "p", some "beta.com", some "host.example"⟩,
   ⟨some "a", some "alpha.com", some "3.3.3.3"⟩]

/-- An entry whose type is not one of the recognized kinds. -/
def c7entry : ZoneEntry :=
  ⟨some "txt", some "x.com", some "v"⟩

/-- An entry missing its `type` key. -/
def c7badEntry : ZoneEntry :=
  ⟨none, some "x.com", some "1.2.3.4"⟩

/-- One well-formed provider entry. -/
def c10entries : List ZoneEntry :=
  [⟨some "a", some "x.com", some "1.2.3.4"⟩]

/-- The table the construction loop builds from `c10entries`. -/
def c10tbl : List (String × List Record) :=
  [("x.com", [aRecord 0 "1.2.3.4"])]

/-- Query for `www.x.com`, a subdomain with no exact zone entry. -/
def c10q : DNSQuestion :=
  ⟨⟨["www", "x", "com"]⟩, QTYPE.A⟩

/-! Helper lemmas. -/

theorem findSOA_eq_find? (l : List Record) : findSOA l = l.find? Record.is_soa := by
  induction l with
  | nil => rfl
  | cons r rest ih =>
      simp only [findSOA, List.find?]
      cases h : r.is_soa <;> simp [h, ih]

theorem fallback_answers_eq_fallbackSpec (zones : List (DNSLabel × List Record))
    (qname : DNSLabel) :
    fallback_answers qname zones = fallbackSpec zones qname := by
  induction zones with
  | nil => rfl
  | cons zv rest ih =>
      obtain ⟨zl, zrecs⟩ := zv
      cases hms : qname.matchSuffix zl with
      | false =>
          simp only [fallback_answers, hms, Bool.false_eq_true, if_false,
            fallbackSpec, List.find?, Bool.false_and]
          exact ih
      | true =>
          cases hf : findSOA zrecs with
          | some r =>
              have hfind : zrecs.find? Record.is_soa = some r := by
                rw [← findSOA_eq_find?]; exact hf
              have hany : zrecs.any Record.is_soa = true := by
                rcases List.find?_eq_some_iff_getElem.mp hfind with ⟨hp, i, hi, hget, hmin⟩
                exact List.any_eq_true.mpr ⟨r, by
                  exact ⟨hget ▸ List.getElem_mem hi, hp⟩⟩
              simp [fallback_answers, hms, hf, fallbackSpec, List.find?, hany, hfind]
          | none =>
              have hfind : zrecs.find? Record.is_soa = none := by
                rw [← findSOA_eq_find?]; exact hf
              have hany : zrecs.any Record.is_soa = false := by
                rw [List.any_eq_false]
                intro r hr
                have := List.find?_eq_none.mp hfind r hr
                simpa using this
              simp only [fallback_answers, hms, if_true, hf, fallbackSpec,
                List.find?, hany, Bool.and_false]
              exact ih

theorem lookupOD_insertOD_str {α : Type} (tbl : List (String × α)) (k n : String)
    (v : α) :
    lookupOD strEq (insertOD strEq tbl k v) n =
      if k = n then some v else lookupOD strEq tbl n := by
  induction tbl with
  | nil =>
      by_cases h : k = n <;> simp [insertOD, lookupOD, strEq, h]
  | cons kv rest ih =>
      obtain ⟨k0, v0⟩ := kv
      by_cases h0 : k0 = k
      · subst h0
        by_cases h1 : k0 = n <;> simp [insertOD, lookupOD, strEq, h1]
      · by_cases h1 : k0 = n
        · have hkn : ¬ k = n := fun h => h0 (h1.trans h.symm)
          have hnk : ¬ n = k := fun h => hkn h.symm
          simp [insertOD, lookupOD, strEq, h0, h1, hkn, hnk]
        · simp [insertOD, lookupOD, strEq, h0, h1, ih]

theorem keys_insertOD_str {α : Type} (tbl : List (String × α)) (k : String) (v : α) :
    (insertOD strEq tbl k v).map Prod.fst =
      if k ∈ tbl.map Prod.fst then tbl.map Prod.fst
      else tbl.map Prod.fst ++ [k] := by
  induction tbl with
  | nil => simp [insertOD]
  | cons kv rest ih =>
      obtain ⟨k0, v0⟩ := kv
      by_cases h0 : k0 = k
      · subst h0
        simp [insertOD, strEq]
      · have hk0 : ¬ k = k0 := fun h => h0 h.symm
        simp only [insertOD, strEq, decide_eq_true_eq, h0, if_false, List.map_cons,
          List.mem_cons, ih]
        by_cases hk : k ∈ rest.map Prod.fst <;> simp [hk, hk0]

theorem firstOccs_congr (s1 s2 ns : List String) (h : ∀ x, x ∈ s1 ↔ x ∈ s2) :
    firstOccs s1 ns = firstOccs s2 ns := by
  induction ns generalizing s1 s2 with
  | nil => rfl
  | cons n rest ih =>
      by_cases hn : n ∈ s1
      · have hn2 : n ∈ s2 := (h n).mp hn
        simp only [firstOccs, hn, hn2, if_true]
        exact ih s1 s2 h
      · have hn2 : n ∉ s2 := fun hx => hn ((h n).mpr hx)
        simp only [firstOccs, hn, hn2, if_false]
        refine congrArg (n :: ·) (ih (n :: s1) (n :: s2) ?_)
        intro x
        simp [h x]

theorem mem_insertOD {κ α : Type} (eqk : κ → κ → Bool) (tbl : List (κ × α))
    (k : κ) (v : α) (p : κ × α) :
    p ∈ insertOD eqk tbl k v → p.2 = v ∨ p ∈ tbl := by
  induction tbl with
  | nil =>
      intro hp
      simp only [insertOD, List.mem_singleton] at hp
      exact Or.inl (by rw [hp])
  | cons kv rest ih =>
      intro hp
      obtain ⟨k0, v0⟩ := kv
      by_cases h0 : eqk k0 k = true
      · simp only [insertOD, h0, if_true, List.mem_cons] at hp
        rcases hp with rfl | hp
        · exact Or.inl rfl
        · exact Or.inr (List.mem_cons_of_mem _ hp)
      · simp only [insertOD, h0, Bool.false_eq_true, if_false, List.mem_cons] at hp
        rcases hp with rfl | hp
        · exact Or.inr (List.mem_cons_self _ _)
        · rcases ih hp with h | h
          · exact Or.inl h
          · exact Or.inr (List.mem_cons_of_mem _ h)

theorem zoneStep_wf_ok (serial : Nat) (ghbn : String → String)
    (tbl : List (String × List Record)) (e : ZoneEntry) (h : wfEntry e) :
    zoneStep serial ghbn tbl e = .ok (wfStep serial ghbn tbl e) := by
  obtain ⟨ty, nm, vl⟩ := e
  obtain ⟨hty, hn, hv⟩ := h
  obtain ⟨n, rfl⟩ := Option.isSome_iff_exists.mp hn
  obtain ⟨v, rfl⟩ := Option.isSome_iff_exists.mp hv
  rcases hty with rfl | rfl <;> rfl

theorem foldlM_zoneStep_wf (serial : Nat) (ghbn : String → String)
    (entries : List ZoneEntry) (h : ∀ e ∈ entries, wfEntry e)
    (tbl : List (String × List Record)) :
    entries.foldlM (zoneStep serial ghbn) tbl =
      .ok (entries.foldl (wfStep serial ghbn) tbl) := by
  induction entries generalizing tbl with
  | nil => rfl
  | cons e rest ih =>
      have hstep := zoneStep_wf_ok serial ghbn tbl e (h e (List.mem_cons_self e rest))
      show zoneStep serial ghbn tbl e >>= (fun t => rest.foldlM (zoneStep serial ghbn) t) =
        .ok (rest.foldl (wfStep serial ghbn) (wfStep serial ghbn tbl e))
      rw [hstep]
      exact ih (fun x hx => h x (List.mem_cons_of_mem e hx)) (wfStep serial ghbn tbl e)

theorem lookup_foldl_wfStep (serial : Nat) (ghbn : String → String)
    (es : List ZoneEntry) (tbl : List (String × List Record)) (n : String) :
    lookupOD strEq (es.foldl (wfStep serial ghbn) tbl) n =
      match es.reverse.find? (fun e => strEq (entryName e) n) with
      | some e => some [entryRecord serial ghbn e]
      | none => lookupOD strEq tbl n := by
  induction es generalizing tbl with
  | nil => rfl
  | cons e rest ih =>
      rw [List.foldl_cons, ih, List.reverse_cons, List.find?_append]
      cases hfr : rest.reverse.find? (fun x => strEq (entryName x) n) with
      | some e0 => simp
      | none =>
          simp only [Option.none_or]
          have hins : lookupOD strEq (wfStep serial ghbn tbl e) n =
              if entryName e = n then some [entryRecord serial ghbn e]
              else lookupOD strEq tbl n :=
            lookupOD_insertOD_str tbl (entryName e) n [entryRecord serial ghbn e]
          by_cases hpe : entryName e = n
          · simp [List.find?, strEq, hpe, hins]
          · simp [List.find?, strEq, hpe, hins]

theorem keys_foldl_wfStep (serial : Nat) (ghbn : String → String)
    (es : List ZoneEntry) (tbl : List (String × List Record)) :
    (es.foldl (wfStep serial ghbn) tbl).map Prod.fst =
      tbl.map Prod.fst ++ firstOccs (tbl.map Prod.fst) (es.map entryName) := by
  induction es generalizing tbl with
  | nil => simp [firstOccs]
  | cons e rest ih =>
      rw [List.foldl_cons, ih, List.map_cons]
      by_cases hk : entryName e ∈ tbl.map Prod.fst
      · have hkeys : (wfStep serial ghbn tbl e).map Prod.fst = tbl.map Prod.fst := by
          rw [wfStep, keys_insertOD_str]
          simp [hk]
        rw [hkeys]
        simp [firstOccs, hk]
      · have hkeys : (wfStep serial ghbn tbl e).map Prod.fst =
            tbl.map Prod.fst ++ [entryName e] := by
          rw [wfStep, keys_insertOD_str]
          simp [hk]
        rw [hkeys]
        simp only [firstOccs, hk, if_false]
        rw [firstOccs_congr (tbl.map Prod.fst ++ [entryName e])
          (entryName e :: tbl.map Prod.fst) (rest.map entryName)
          (by intro x; simp [or_comm])]
        simp

theorem except_bind_ok {ε α β : Type} (a : α) (f : α → Except ε β) :
    (Except.ok a >>= f) = f a := rfl

theorem zoneStep_bad_error (serial : Nat) (ghbn : String → String)
    (tbl : List (String × List Record)) (e : ZoneEntry) (h : badEntry e) :
    zoneStep serial ghbn tbl e = .error .keyError := by
  obtain ⟨ty, nm, vl⟩ := e
  cases ty with
  | none => rfl
  | some t =>
      have ht : t = "a" ∨ t = "p" := by
        rcases h with h | ⟨hty, _⟩
        · simp at h
        · simpa using hty
      have hmv : vl = none ∨ nm = none := by
        rcases h with h | ⟨_, hmv⟩
        · simp at h
        · simpa using hmv
      rcases ht with rfl | rfl <;> rcases hmv with rfl | rfl
      · rfl
      · cases vl <;> rfl
      · rfl
      · cases vl <;> rfl

theorem zoneStep_not_bad_ok (serial : Nat) (ghbn : String → String)
    (tbl : List (String × List Record)) (e : ZoneEntry) (h : ¬ badEntry e) :
    ∃ t2, zoneStep serial ghbn tbl e = .ok t2 := by
  obtain ⟨ty, nm, vl⟩ := e
  unfold badEntry at h
  push_neg at h
  obtain ⟨hty, himp⟩ := h
  cases ty with
  | none => simp at hty
  | some t =>
      by_cases hta : t = "a"
      · subst hta
        obtain ⟨hv, hn⟩ := himp (Or.inl rfl)
        obtain ⟨v, rfl⟩ := Option.ne_none_iff_exists'.mp (by simpa using hv)
        obtain ⟨n, rfl⟩ := Option.ne_none_iff_exists'.mp (by simpa using hn)
        exact ⟨_, rfl⟩
      · by_cases htp : t = "p"
        · subst htp
          obtain ⟨hv, hn⟩ := himp (Or.inr rfl)
          obtain ⟨v, rfl⟩ := Option.ne_none_iff_exists'.mp (by simpa using hv)
          obtain ⟨n, rfl⟩ := Option.ne_none_iff_exists'.mp (by simpa using hn)
          exact ⟨_, rfl⟩
        · refine ⟨tbl, ?_⟩
          simp only [zoneStep, getItem, except_bind_ok]
          rw [if_neg hta, if_neg htp]
          rfl

theorem foldlM_zoneStep_bad (serial : Nat) (ghbn : String → String)
    (entries : List ZoneEntry) (tbl : List (String × List Record))
    (h : ∃ e ∈ entries, badEntry e) :
    entries.foldlM (zoneStep serial ghbn) tbl = .error .keyError := by
  induction entries generalizing tbl with
  | nil =>
      rcases h with ⟨e, he, _⟩
      exact absurd he (List.not_mem_nil e)
  | cons e rest ih =>
      by_cases hb : badEntry e
      · show zoneStep serial ghbn tbl e >>= (fun t => rest.foldlM (zoneStep serial ghbn) t) = _
        rw [zoneStep_bad_error serial ghbn tbl e hb]
        rfl
      · rcases h with ⟨e0, he0, hbad⟩
        rcases List.mem_cons.mp he0 with rfl | he0
        · exact absurd hbad hb
        · obtain ⟨t2, hst⟩ := zoneStep_not_bad_ok serial ghbn tbl e hb
          show zoneStep serial ghbn tbl e >>= (fun t => rest.foldlM (zoneStep serial ghbn) t) = _
          rw [hst, except_bind_ok]
          exact ih t2 ⟨e0, he0, hbad⟩

theorem zoneStep_ok_cases (serial : Nat) (ghbn : String → String)
    (tbl : List (String × List Record)) (e : ZoneEntry)
    (t1 : List (String × List Record)) (h : zoneStep serial ghbn tbl e = .ok t1) :
    t1 = tbl ∨ ∃ n v, t1 = insertOD strEq tbl n [aRecord serial v] := by
  obtain ⟨ty, nm, vl⟩ := e
  cases ty with
  | none => exact Except.noConfusion h
  | some t =>
      by_cases hta : t = "a"
      · subst hta
        cases vl with
        | none => exact Except.noConfusion h
        | some v =>
            cases nm with
            | none => exact Except.noConfusion h
            | some n => exact Or.inr ⟨n, v, (Except.ok.inj h).symm⟩
      · by_cases htp : t = "p"
        · subst htp
          cases vl with
          | none => exact Except.noConfusion h
          | some v =>
              cases nm with
              | none => exact Except.noConfusion h
              | some n => exact Or.inr ⟨n, ghbn v, (Except.ok.inj h).symm⟩
        · simp only [zoneStep, getItem, except_bind_ok] at h
          rw [if_neg hta, if_neg htp] at h
          exact Or.inl (Except.ok.inj h).symm

theorem foldlM_zoneStep_buckets (serial : Nat) (ghbn : String → String)
    (entries : List ZoneEntry) (tbl0 tbl : List (String × List Record))
    (h0 : ∀ p ∈ tbl0, ∃ v, p.2 = [aRecord serial v])
    (h : entries.foldlM (zoneStep serial ghbn) tbl0 = .ok tbl) :
    ∀ p ∈ tbl, ∃ v, p.2 = [aRecord serial v] := by
  induction entries generalizing tbl0 with
  | nil => exact (Except.ok.inj h) ▸ h0
  | cons e rest ih =>
      have hbind : zoneStep serial ghbn tbl0 e >>=
          (fun t => rest.foldlM (zoneStep serial ghbn) t) = .ok tbl := h
      cases hst : zoneStep serial ghbn tbl0 e with
      | error err =>
          rw [hst] at hbind
          exact Except.noConfusion hbind
      | ok t1 =>
          rw [hst, except_bind_ok] at hbind
          have h1 : ∀ p ∈ t1, ∃ v, p.2 = [aRecord serial v] := by
            rcases zoneStep_ok_cases serial ghbn tbl0 e t1 hst with rfl | ⟨n, v, rfl⟩
            · exact h0
            · intro p hp
              rcases mem_insertOD strEq tbl0 n [aRecord serial v] p hp with hv | hmem
              · exact ⟨v, hv⟩
              · exact h0 p hmem
          exact ih t1 h1 hbind

theorem mem_foldl_insertOD {γ κ α : Type} (eqk : κ → κ → Bool) (f : γ → κ)
    (l : List (γ × α)) (acc : List (κ × α)) (p : κ × α) :
    p ∈ l.foldl (fun a kv => insertOD eqk a (f kv.1) kv.2) acc →
      p ∈ acc ∨ ∃ kv ∈ l, p.2 = kv.2 := by
  induction l generalizing acc with
  | nil => exact fun hp => Or.inl hp
  | cons kv rest ih =>
      intro hp
      rw [List.foldl_cons] at hp
      rcases ih (insertOD eqk acc (f kv.1) kv.2) hp with hin | ⟨kv0, hkv0, hsnd⟩
      · rcases mem_insertOD eqk acc (f kv.1) kv.2 p hin with hv | hmem
        · exact Or.inr ⟨kv, List.mem_cons_self kv rest, hv⟩
        · exact Or.inl hmem
      · exact Or.inr ⟨kv0, List.mem_cons_of_mem kv hkv0, hsnd⟩

theorem mem_resolver_init (tbl : List (String × List Record))
    (p : DNSLabel × List Record) (hp : p ∈ (Resolver.init tbl).zones) :
    ∃ kv ∈ tbl, p.2 = kv.2 := by
  rcases mem_foldl_insertOD DNSLabel.eqv DNSLabel.ofString tbl [] p hp with hin | h
  · exact absurd hin (List.not_mem_nil p)
  · exact h

theorem fallback_answers_no_soa (qname : DNSLabel)
    (zones : List (DNSLabel × List Record))
    (h : ∀ zv ∈ zones, findSOA zv.2 = none) :
    fallback_answers qname zones = [] := by
  induction zones with
  | nil => rfl
  | cons zv rest ih =>
      obtain ⟨zl, zrecs⟩ := zv
      have hz := h (zl, zrecs) (List.mem_cons_self _ _)
      have hrest := ih (fun x hx => h x (List.mem_cons_of_mem _ hx))
      by_cases hms : qname.matchSuffix zl = true
      · simp only [fallback_answers, hms, if_true] at *
        rw [hz]
        exact hrest
      · simp only [fallback_answers, hms, if_false] at *
        exact hrest

/-! Claim theorems. -/

/-- C1 (code_bug evidence): a query whose qname has an exact zone but
whose qtype matches no record of the zone does not return an
empty answer set — the logging line dereferences the `None` returned
by `try_rr`, so `resolve` raises `AttributeError`. -/
theorem c1_no_matching_qtype_raises :
    (c1res.resolve c1q).1 = .error .attributeError := rfl

/-- C2 (code_bug evidence): over a zone holding `[A, TXT]`, a query
for `A` does not return just the `A` record — `resolve` raises
`AttributeError` on the non-matching `TXT` record — while a query for
`ANY` does return both records in original order, each answer carrying
the queried name as owner. -/
theorem c2_selective_query_raises_any_returns_all :
    ((c2res.resolve ⟨⟨["example", "com"]⟩, QTYPE.A⟩).1 = .error .attributeError) ∧
    ((c2res.resolve ⟨⟨["example", "com"]⟩, QTYPE.ANY⟩).1 =
      .ok [⟨⟨["example", "com"]⟩, QTYPE.A, .a "1.2.3.4", 300⟩,
           ⟨⟨["example", "com"]⟩, QTYPE.TXT, .txt "hello", 300⟩]) :=
  ⟨rfl, rfl⟩

/-- C3 counterexample: when the SOA record of the first
suffix-matching zone carries an `rname` override, the owner of the
produced answer is the override, not the own name of the zone,
refuting the claim as stated. -/
theorem c3_override_owner_counterexample :
    (c3res.resolve c3q).1 =
      .ok [⟨⟨["other", "test"]⟩, QTYPE.SOA,
            .soa "ns1.example" "hostmaster.example" ⟨0, 3600, 10800, 86400, 3600⟩,
            86400⟩] ∧
    (⟨["other", "test"]⟩ : DNSLabel) ≠ ⟨["com"]⟩ :=
  ⟨rfl, by decide⟩

/-- C3 as amended: for every query whose qname has no exact zone entry,
`resolve` returns normally, scanning zones in stored order, skipping
suffix-matching zones without an SOA record, answering with exactly
the first SOA record of the first suffix-matching zone — owner being
the `rname` override of that record when set and otherwise the own
name of the zone —
and empty when no suffix-matching zone has an SOA record. -/
theorem c3_suffix_fallback_first_soa_zone (res : Resolver) (q : DNSQuestion)
    (h : lookupOD DNSLabel.eqv res.zones q.qname = none) :
    (res.resolve q).1 = .ok (fallbackSpec res.zones q.qname) := by
  simp only [Resolver.resolve, Resolver.resolveAnswers, h]
  rw [fallback_answers_eq_fallbackSpec]

/-- C3 witness: the amended theorem applied to the zones
`net` (A only, skipped) then `com` (SOA) and the query `www.com/A`. -/
theorem c3_suffix_fallback_witness :
    lookupOD DNSLabel.eqv c3wres.zones c3wq.qname = none ∧
    (c3wres.resolve c3wq).1 = .ok (fallbackSpec c3wres.zones c3wq.qname) :=
  ⟨by decide, c3_suffix_fallback_first_soa_zone c3wres c3wq (by decide)⟩

/-- C4: an explicit TTL (including 0) is stored as given; with no
explicit TTL the stored TTL is 86400 when the (final) record type is
NS or SOA and 300 otherwise; the TTL is a field computed at
construction, and no operation of the model rewrites it. -/
theorem c4_ttl_defaulting (serial : Nat) (arg : RdataArg) (rt : Option Nat)
    (rn : Option DNSLabel) :
    (∀ t, (Record.init serial arg rt rn (some t)).ttl = t) ∧
    ((Record.init serial arg rt rn none).ttl =
      if (Record.init serial arg rt rn none).rtype = QTYPE.NS ∨
         (Record.init serial arg rt rn none).rtype = QTYPE.SOA
      then 86400 else 300) :=
  ⟨fun _ => rfl, rfl⟩

/-- C5: an SOA record built from only the two mandatory payload fields
gets `serial` = the process-start epoch-seconds value and the fixed
timers refresh 3600, retry 10800, expire 86400, minimum 3600, while an
SOA built with all fields supplied keeps them unmodified. -/
theorem c5_soa_sensible_times (serial : Nat) (m r : String) (rt : Option Nat)
    (rn : Option DNSLabel) (ttl : Option Nat) :
    ((Record.init serial (.cls (.SOA m r none)) rt rn ttl).rdata =
      .soa m r ⟨serial, 3600, 10800, 86400, 3600⟩) ∧
    (∀ t, (Record.init serial (.cls (.SOA m r (some t))) rt rn ttl).rdata =
      .soa m r t) :=
  ⟨rfl, fun _ => rfl⟩

/-- C6 counterexample: the loop body executes `ZONES[name] = [...]`,
an assignment, not an append — two well-formed entries with the same
name leave one bucket holding only the record of the second entry, not both
records in input order. -/
theorem c6_same_name_counterexample :
    buildZONES 0 (fun _ => "0.0.0.0") c6entries =
      .ok [("x.com", [Record.init 0 (.cls (.A "2.2.2.2")) none none none])] ∧
    [Record.init 0 (.cls (.A "1.1.1.1")) none none none,
     Record.init 0 (.cls (.A "2.2.2.2")) none none none] ≠
      [Record.init 0 (.cls (.A "2.2.2.2")) none none none] :=
  ⟨rfl, by decide⟩

/-- C6 as amended: for every ordered sequence of well-formed entries,
construction succeeds; the zone-name order of the table is the order
of first occurrence of each name in the input (input order across
distinct names is preserved); and each present name is mapped to a
one-record bucket built from the LAST input entry carrying that name
(a repeated name replaces the bucket, keeping the original
position). -/
theorem c6_construction_replaces_buckets (serial : Nat) (ghbn : String → String)
    (entries : List ZoneEntry) (h : ∀ e ∈ entries, wfEntry e) :
    ∃ tbl, buildZONES serial ghbn entries = .ok tbl ∧
      tbl.map Prod.fst = firstOccs [] (entries.map entryName) ∧
      ∀ n, lookupOD strEq tbl n =
        match entries.reverse.find? (fun e => strEq (entryName e) n) with
        | some e => some [entryRecord serial ghbn e]
        | none => none := by
  refine ⟨entries.foldl (wfStep serial ghbn) [], ?_, ?_, ?_⟩
  · exact foldlM_zoneStep_wf serial ghbn entries h []
  · rw [keys_foldl_wfStep]
    rfl
  · intro n
    rw [lookup_foldl_wfStep]
    cases hf : entries.reverse.find? (fun e => strEq (entryName e) n) <;> simp [hf, lookupOD]

/-- C6 witness: the amended theorem applied to three well-formed
entries in which the first name occurs twice. -/
theorem c6_construction_witness :
    (∀ e ∈ c6wentries, wfEntry e) ∧
    (∃ tbl, buildZONES 5 (fun _ => "7.7.7.7") c6wentries = .ok tbl ∧
      tbl.map Prod.fst = firstOccs [] (c6wentries.map entryName) ∧
      ∀ n, lookupOD strEq tbl n =
        match c6wentries.reverse.find? (fun e => strEq (entryName e) n) with
        | some e => some [entryRecord 5 (fun _ => "7.7.7.7") e]
        | none => none) :=
  ⟨by decide, c6_construction_replaces_buckets 5 (fun _ => "7.7.7.7") c6wentries (by decide)⟩

/-- C7 counterexample: an entry whose type is not one of the
recognized kinds does not make construction fail — it falls through
both branches of the loop, so construction succeeds with the entry
silently dropped and the table left without it. -/
theorem c7_unrecognized_type_counterexample :
    buildZONES 0 (fun _ => "0.0.0.0") [c7entry] = .ok [] := rfl

/-- C7 as amended: construction fails (with the `KeyError` of the loop)
for every input sequence containing an entry that is missing its
`type` key, or whose type is recognized (`"a"` or `"p"`) but is
missing its `value` or `name` key; an entry with an unrecognized type,
by contrast, is silently skipped. -/
theorem c7_missing_key_fails (serial : Nat) (ghbn : String → String)
    (entries : List ZoneEntry) (h : ∃ e ∈ entries, badEntry e) :
    buildZONES serial ghbn entries = .error .keyError :=
  foldlM_zoneStep_bad serial ghbn entries [] h

/-- C7 witness: the amended theorem applied to a one-entry sequence
whose entry is missing its `type` key. -/
theorem c7_missing_key_witness :
    (∃ e ∈ [c7badEntry], badEntry e) ∧
    buildZONES 3 (fun _ => "0.0.0.0") [c7badEntry] = .error .keyError :=
  ⟨by decide, c7_missing_key_fails 3 (fun _ => "0.0.0.0") [c7badEntry] (by decide)⟩

/-- C8: `resolve` leaves the resolver state — the zone list, its
order, and every record in it — unchanged: the state component of the
result is the input state. -/
theorem c8_resolve_preserves_zones (res : Resolver) (q : DNSQuestion) :
    (res.resolve q).2 = res := rfl

/-- C9: resolving the same query twice in sequence (the second time
against the state returned by the first) yields the identical result,
answers in the same order. -/
theorem c9_resolve_deterministic (res : Resolver) (q : DNSQuestion) :
    ((res.resolve q).2.resolve q).1 = (res.resolve q).1 := rfl

/-- C10: every table the construction loop can produce has only
one-record buckets holding `A`-kind records — in particular no record
of any such table satisfies `is_soa` — and consequently any query
whose qname has no exact entry in the resulting resolver goes down the
fallback path, finds no SOA in any suffix-matching zone, and yields an
empty answer sequence (returned normally). -/
theorem c10_provider_tables_have_no_soa (serial : Nat) (ghbn : String → String)
    (entries : List ZoneEntry) (tbl : List (String × List Record))
    (h : buildZONES serial ghbn entries = .ok tbl) (q : DNSQuestion)
    (hq : lookupOD DNSLabel.eqv (Resolver.init tbl).zones q.qname = none) :
    (∀ p ∈ tbl, ∃ v, p.2 = [aRecord serial v]) ∧
    (∀ p ∈ tbl, ∀ r ∈ p.2, r.is_soa = false) ∧
    ((Resolver.init tbl).resolve q).1 = .ok [] := by
  have hbuckets : ∀ p ∈ tbl, ∃ v, p.2 = [aRecord serial v] :=
    foldlM_zoneStep_buckets serial ghbn entries [] tbl
      (fun p hp => absurd hp (List.not_mem_nil p)) h
  refine ⟨hbuckets, ?_, ?_⟩
  · intro p hp r hr
    obtain ⟨v, hv⟩ := hbuckets p hp
    rw [hv] at hr
    rcases List.mem_singleton.mp hr with rfl
    rfl
  · have hz : ∀ zv ∈ (Resolver.init tbl).zones, findSOA zv.2 = none := by
      intro zv hzv
      obtain ⟨kv, hkv, hsnd⟩ := mem_resolver_init tbl zv hzv
      obtain ⟨v, hv⟩ := hbuckets kv hkv
      rw [hsnd, hv]
      rfl
    simp only [Resolver.resolve, Resolver.resolveAnswers, hq]
    rw [fallback_answers_no_soa q.qname (Resolver.init tbl).zones hz]

/-- C10 witness: the theorem applied to the table built from a single
`A` entry for `x.com` and a query for the subdomain `www.x.com`. -/
theorem c10_no_soa_witness :
    buildZONES 0 (fun s => s) c10entries = .ok c10tbl ∧
    lookupOD DNSLabel.eqv (Resolver.init c10tbl).zones c10q.qname = none ∧
    ((∀ p ∈ c10tbl, ∃ v, p.2 = [aRecord 0 v]) ∧
     (∀ p ∈ c10tbl, ∀ r ∈ p.2, r.is_soa = false) ∧
     ((Resolver.init c10tbl).resolve c10q).1 = .ok []) :=
  ⟨rfl, rfl,
   c10_provider_tables_have_no_soa 0 (fun s => s) c10entries c10tbl rfl c10q rfl⟩

end InsigniaDNS
